import Mathlib

/-!
Verification of the BOL (Bill of Lading) field-extraction and quality-scoring
engine of `server/ocr/bol_processor.py`.

Embedding conventions:
* Python strings are `List Char`; the inputs of interest are ASCII, so the
  Python regex character classes (which are Unicode-aware) are modelled by
  their ASCII restrictions, and `re.IGNORECASE` is modelled by ASCII
  `Char.toLower` comparison.
* Python floats are modelled as exact rationals (`ℚ`); `int(x)` is truncation
  toward zero, `round(x, n)` is round-half-to-even.
* Every regular expression used by `_extract_bol_fields` contains exactly one
  capturing group at the top level, so each pattern is represented as a
  `Pat` record: regex text before the group, the group body, and regex text
  after the group.  The backtracking matcher `mat` reproduces Python `re`
  semantics: leftmost search position wins, alternation prefers the left
  branch, greedy repetition tries longest first, lazy repetition shortest
  first.
-/

/-- Python whitespace (`\s`, `str.strip`), ASCII part. -/
def isWS (c : Char) : Bool :=
  c == ' ' || c == '\t' || c == '\n' || c == '\r' || c == '\x0b' || c == '\x0c'

/-- `\d` (ASCII). -/
def isDigitC (c : Char) : Bool := c.isDigit

/-- `[A-Z0-9]` under `re.IGNORECASE` (ASCII). -/
def isAlnumCI (c : Char) : Bool := c.isUpper || c.isLower || c.isDigit

/-- `[A-Z]` / `[A-Za-z]` under `re.IGNORECASE` (ASCII). -/
def isAlphaCI (c : Char) : Bool := c.isUpper || c.isLower

/-- `\w` (ASCII), used by the `\b` word-boundary assertion. -/
def isWordC (c : Char) : Bool := isAlnumCI c || c == '_'

/-- `[A-Za-z\s&.,]` — the carrier-name class. -/
def isCarrierC (c : Char) : Bool := isAlphaCI c || isWS c || c == '&' || c == '.' || c == ','

/-- `[\s#:]`. -/
def isWsHashColon (c : Char) : Bool := isWS c || c == '#' || c == ':'

/-- `[\s:]`. -/
def isWsColon (c : Char) : Bool := isWS c || c == ':'

/-- `[\s#]`. -/
def isWsHash (c : Char) : Bool := isWS c || c == '#'

/-- The date-separator class: slash or dash. -/
def isSlashDash (c : Char) : Bool := c == '/' || c == '-'

/-- `[A-Za-z\s,]` — the address class. -/
def isAddrC (c : Char) : Bool := isAlphaCI c || isWS c || c == ','

/-- Python `str.strip()` (ASCII whitespace). -/
def pyStrip (s : List Char) : List Char :=
  ((s.dropWhile isWS).reverse.dropWhile isWS).reverse

/-- The floor of a rational, computed with flooring integer division. -/
def ratFloor (q : ℚ) : ℤ := q.num.fdiv (q.den : ℤ)

/-- Python `int(x)` on a float: truncation toward zero. -/
def pyInt (q : ℚ) : ℤ := if q < 0 then -(ratFloor (-q)) else ratFloor q

/-- Python `round(x)` to an integer: round half to even. -/
def pyRound (q : ℚ) : ℤ :=
  let f := ratFloor q
  let r := q - (f : ℚ)
  if r < 1/2 then f else if 1/2 < r then f + 1
  else if f.natAbs % 2 = 0 then f else f + 1

/-- Python `round(x, 2)`: round half to even at two decimal places. -/
def round2 (q : ℚ) : ℚ := (pyRound (q * 100) : ℚ) / 100

/-- Regular-expression syntax, covering exactly the constructs used by the
patterns in `_extract_bol_fields`.  Unbounded repetition only ever has a
single character class as its body in those patterns, so repetition is
modelled as class repetition `rep p min max lazy` (`max = none` means
unbounded). -/
inductive RE where
  | eps : RE
  | cls (p : Char → Bool) : RE
  | seq (a b : RE) : RE
  | alt (a b : RE) : RE
  | opt (a : RE) : RE
  | rep (p : Char → Bool) (mn : Nat) (mx : Option Nat) (lazy : Bool) : RE
  | group (a : RE) : RE
  | endAnchor : RE
  | wordB : RE

/-- A single case-insensitive literal character. -/
def chCI (c : Char) : RE := RE.cls (fun d => d.toLower == c.toLower)

/-- Case-insensitive literal string. -/
def litCI (s : String) : RE :=
  s.data.foldr (fun c r => RE.seq (chCI c) r) RE.eps

/-- Length of the maximal prefix of `s` whose characters satisfy `p`. -/
def runLen (p : Char → Bool) : List Char → Nat
  | [] => 0
  | c :: s => if p c then runLen p s + 1 else 0

/-- The candidate consumption counts for a class repetition, in the order a
backtracking engine tries them: greedy from the longest, lazy from the
shortest. -/
def candList (mn mx : Nat) (lazy : Bool) : List Nat :=
  if mx < mn then []
  else if lazy then List.range' mn (mx - mn + 1)
  else (List.range' mn (mx - mn + 1)).reverse

/-- Effective maximum repetition count at the current position. -/
def effMax (mx : Option Nat) (run : Nat) : Nat :=
  match mx with
  | none => run
  | some m => min run m

/-- The character preceding the current position after consuming `u`. -/
def prevAfter (prev : Option Char) (u : List Char) : Option Char :=
  match u.getLast? with
  | some c => some c
  | none => prev

/-- Is the (optional) character a word character (`\w`)?  Absent characters
(string edges) count as non-word. -/
def isWordOpt : Option Char → Bool
  | some c => isWordC c
  | none => false

/-- Try the continuation after consuming each candidate count in turn. -/
def tryCands {α : Type} (k : Option Char → List Char → Option (List Char) → Option α)
    (cap : Option (List Char)) (s : List Char) (prev : Option Char) : List Nat → Option α
  | [] => none
  | n :: ns =>
    (k (prevAfter prev (s.take n)) (s.drop n) cap).orElse
      (fun _ => tryCands k cap s prev ns)

/-- Backtracking matcher in continuation-passing style.  `prev` is the
character just before the current position (for `\b`), `cap` the capture
recorded so far.  The continuation receives the new `prev`, the remaining
input and the capture state; the first continuation call returning `some`
wins, reproducing Python `re` backtracking order. -/
def mat {α : Type} : RE → Option Char → List Char →
    (Option Char → List Char → Option (List Char) → Option α) →
    Option (List Char) → Option α
  | .eps, prev, s, k, cap => k prev s cap
  | .cls p, _, s, k, cap =>
    match s with
    | [] => none
    | c :: s' => if p c then k (some c) s' cap else none
  | .seq a b, prev, s, k, cap =>
    mat a prev s (fun prev1 s1 cap1 => mat b prev1 s1 k cap1) cap
  | .alt a b, prev, s, k, cap =>
    (mat a prev s k cap).orElse (fun _ => mat b prev s k cap)
  | .opt a, prev, s, k, cap =>
    (mat a prev s k cap).orElse (fun _ => k prev s cap)
  | .rep p mn mx lz, prev, s, k, cap =>
    tryCands k cap s prev (candList mn (effMax mx (runLen p s)) lz)
  | .group a, prev, s, k, cap =>
    mat a prev s (fun prev1 s1 _ => k prev1 s1 (some (s.take (s.length - s1.length)))) cap
  | .endAnchor, prev, s, k, cap =>
    if s = [] ∨ s = ['\n'] then k prev s cap else none
  | .wordB, prev, s, k, cap =>
    if isWordOpt prev != isWordOpt s.head? then k prev s cap else none

/-- `re.search` scanning: try a full match at each start position from the
left; the leftmost position at which the pattern matches wins.  On success
the recorded capture (group 1) is returned. -/
def searchFrom (r : RE) : Option Char → List Char → Option (Option (List Char))
  | prev, [] =>
    match mat r prev [] (fun _ _ c => some c) none with
    | some c => some c
    | none => none
  | prev, ch :: rest =>
    match mat r prev (ch :: rest) (fun _ _ c => some c) none with
    | some c => some c
    | none => searchFrom r (some ch) rest

/-- A source pattern: the part before the (unique) capturing group, the group
body, and the part after the group. -/
structure Pat where
  pre : RE
  body : RE
  post : RE

/-- The regex denoted by a `Pat`. -/
def toRE (p : Pat) : RE := RE.seq p.pre (RE.seq (RE.group p.body) p.post)

/-- `re.search(pattern, text, re.IGNORECASE)`: `none` = no match,
`some cap` = match with capture state `cap` (always `some` here since every
pattern's group is unconditionally part of the match). -/
def patSearch (p : Pat) (s : List Char) : Option (Option (List Char)) :=
  searchFrom (toRE p) none s

/-! ## The patterns of `_extract_bol_fields`, transcribed from the source -/

/-- Pattern text from the source: BOL or B slash L or Bill-of-Lading label,
then optional whitespace, hash or colon, capturing 4+ alphanumerics. -/
def bolP1 : Pat :=
  { pre := RE.seq
      (RE.alt (litCI ("BOL")) (RE.alt (litCI ("B/L"))
        (RE.seq (litCI ("Bill")) (RE.seq (RE.rep isWS 1 none false)
          (RE.seq (litCI ("of")) (RE.seq (RE.rep isWS 1 none false) (litCI ("Lading"))))))))
      (RE.rep isWsHashColon 0 none false),
    body := RE.rep isAlnumCI 4 none false,
    post := RE.eps }

/-- BOL or BL, optional spacing and hash, capturing 4+ alphanumerics. -/
def bolP2 : Pat :=
  { pre := RE.seq (RE.alt (litCI ("BOL")) (litCI ("BL")))
      (RE.seq (RE.rep isWS 0 none false)
        (RE.seq (RE.opt (chCI '#')) (RE.rep isWS 0 none false))),
    body := RE.rep isAlnumCI 4 none false,
    post := RE.eps }

/-- Bill of Lading Number, No or hash label, capturing 4+ alphanumerics. -/
def bolP3 : Pat :=
  { pre := RE.seq (litCI ("Bill")) (RE.seq (RE.rep isWS 1 none false)
      (RE.seq (litCI ("of")) (RE.seq (RE.rep isWS 1 none false)
        (RE.seq (litCI ("Lading")) (RE.seq (RE.rep isWS 1 none false)
          (RE.seq (RE.alt (litCI ("Number")) (RE.alt (litCI ("No")) (chCI '#')))
            (RE.rep isWsColon 0 none false))))))),
    body := RE.rep isAlnumCI 4 none false,
    post := RE.eps }

/-- Word boundary, literal BOL, capturing 6+ alphanumerics, word boundary. -/
def bolP4 : Pat :=
  { pre := RE.seq RE.wordB (litCI ("BOL")),
    body := RE.rep isAlnumCI 6 none false,
    post := RE.wordB }

def bolPatterns : List Pat := [bolP1, bolP2, bolP3, bolP4]

/-- Carrier or Shipper label, lazily capturing carrier-class text up to a
newline, the end of the string, or a two-letter-plus-zip lookahead text. -/
def carP1 : Pat :=
  { pre := RE.seq (RE.alt (litCI ("Carrier")) (litCI ("Shipper")))
      (RE.rep isWsColon 0 none false),
    body := RE.rep isCarrierC 1 none true,
    post := RE.alt (chCI '\n') (RE.alt RE.endAnchor
      (RE.seq (RE.cls isAlphaCI) (RE.seq (RE.cls isAlphaCI)
        (RE.seq (RE.rep isWS 1 none false) (RE.rep isDigitC 5 (some 5) false))))) }

/-- Transport, Trucking, Express or Logistics label, greedy capture. -/
def carP2 : Pat :=
  { pre := RE.seq
      (RE.alt (litCI ("Transport")) (RE.alt (litCI ("Trucking"))
        (RE.alt (litCI ("Express")) (litCI ("Logistics")))))
      (RE.rep isWsColon 0 none false),
    body := RE.rep isCarrierC 1 none false,
    post := RE.eps }

/-- MC number label, greedy capture. -/
def carP3 : Pat :=
  { pre := RE.seq (litCI ("MC")) (RE.seq (RE.rep isWsHash 0 none false)
      (RE.seq (RE.rep isDigitC 1 none false) (RE.rep isWS 0 none false))),
    body := RE.rep isCarrierC 1 none false,
    post := RE.eps }

def carrierPatterns : List Pat := [carP1, carP2, carP3]

/-- The shared weight capture body: digits with an optional decimal part. -/
def decimalBody : RE :=
  RE.seq (RE.rep isDigitC 1 none false)
    (RE.opt (RE.seq (chCI '.') (RE.rep isDigitC 1 none false)))

/-- The unit alternation: lbs, pounds, kg or kgs (with optional s). -/
def unitAlt : RE :=
  RE.alt (RE.seq (litCI ("lb")) (RE.opt (chCI 's')))
    (RE.alt (RE.seq (litCI ("pound")) (RE.opt (chCI 's')))
      (RE.alt (litCI ("kg")) (RE.seq (litCI ("kg")) (RE.opt (chCI 's')))))

/-- Weight or Wt label, capturing a decimal, then a unit token. -/
def wP1 : Pat :=
  { pre := RE.seq (RE.alt (litCI ("Weight")) (litCI ("Wt")))
      (RE.rep isWsColon 0 none false),
    body := decimalBody,
    post := RE.seq (RE.rep isWS 0 none false) unitAlt }

/-- A bare decimal followed by lbs or pounds. -/
def wP2 : Pat :=
  { pre := RE.eps,
    body := decimalBody,
    post := RE.seq (RE.rep isWS 0 none false)
      (RE.alt (RE.seq (litCI ("lb")) (RE.opt (chCI 's')))
        (RE.seq (litCI ("pound")) (RE.opt (chCI 's')))) }

/-- Total Weight label, capturing a decimal. -/
def wP3 : Pat :=
  { pre := RE.seq (litCI ("Total")) (RE.seq (RE.rep isWS 1 none false)
      (RE.seq (litCI ("Weight")) (RE.rep isWsColon 0 none false))),
    body := decimalBody,
    post := RE.eps }

def weightPatterns : List Pat := [wP1, wP2, wP3]

/-- Pallet(s) or Skid(s) label alternation. -/
def palLbl : RE :=
  RE.alt (RE.seq (litCI ("Pallet")) (RE.opt (chCI 's')))
    (RE.seq (litCI ("Skid")) (RE.opt (chCI 's')))

/-- Pallets or Skids label, then an integer. -/
def pP1 : Pat :=
  { pre := RE.seq palLbl (RE.rep isWsColon 0 none false),
    body := RE.rep isDigitC 1 none false,
    post := RE.eps }

/-- An integer, then a Pallets or Skids label. -/
def pP2 : Pat :=
  { pre := RE.eps,
    body := RE.rep isDigitC 1 none false,
    post := RE.seq (RE.rep isWS 0 none false) palLbl }

/-- Pieces or Pcs label, then an integer. -/
def pP3 : Pat :=
  { pre := RE.seq
      (RE.alt (RE.seq (litCI ("Piece")) (RE.opt (chCI 's')))
        (RE.seq (litCI ("Pc")) (RE.opt (chCI 's'))))
      (RE.rep isWsColon 0 none false),
    body := RE.rep isDigitC 1 none false,
    post := RE.eps }

/-- Count or Qty label, then an integer. -/
def pP4 : Pat :=
  { pre := RE.seq (RE.alt (litCI ("Count")) (litCI ("Qty")))
      (RE.rep isWsColon 0 none false),
    body := RE.rep isDigitC 1 none false,
    post := RE.eps }

def palletPatterns : List Pat := [pP1, pP2, pP3, pP4]

/-- The shared date capture body: 1-2 digits, separator, 1-2 digits,
separator, 2-4 digits. -/
def dateBody : RE :=
  RE.seq (RE.rep isDigitC 1 (some 2) false)
    (RE.seq (RE.cls isSlashDash)
      (RE.seq (RE.rep isDigitC 1 (some 2) false)
        (RE.seq (RE.cls isSlashDash) (RE.rep isDigitC 2 (some 4) false))))

/-- Ship or Shipping Date label, capturing a date. -/
def dP1 : Pat :=
  { pre := RE.seq (RE.alt (litCI ("Ship")) (litCI ("Shipping")))
      (RE.seq (RE.rep isWS 1 none false)
        (RE.seq (litCI ("Date")) (RE.rep isWsColon 0 none false))),
    body := dateBody,
    post := RE.eps }

/-- Delivery or Del Date label, capturing a date. -/
def dP2 : Pat :=
  { pre := RE.seq (RE.alt (litCI ("Delivery")) (litCI ("Del")))
      (RE.seq (RE.rep isWS 1 none false)
        (RE.seq (litCI ("Date")) (RE.rep isWsColon 0 none false))),
    body := dateBody,
    post := RE.eps }

/-- Bare Date label, capturing a date. -/
def dP3 : Pat :=
  { pre := RE.seq (litCI ("Date")) (RE.rep isWsColon 0 none false),
    body := dateBody,
    post := RE.eps }

def datePatterns : List Pat := [dP1, dP2, dP3]

/-- The shared address capture body: address-class text, a comma, optional
whitespace, a two-letter region code, whitespace, a 5-digit zip. -/
def addrBody : RE :=
  RE.seq (RE.rep isAddrC 1 none false)
    (RE.seq (chCI ',')
      (RE.seq (RE.rep isWS 0 none false)
        (RE.seq (RE.cls isAlphaCI)
          (RE.seq (RE.cls isAlphaCI)
            (RE.seq (RE.rep isWS 1 none false) (RE.rep isDigitC 5 (some 5) false))))))

/-- From or Origin label, capturing an address. -/
def aP1 : Pat :=
  { pre := RE.seq (RE.alt (litCI ("From")) (litCI ("Origin")))
      (RE.rep isWsColon 0 none false),
    body := addrBody,
    post := RE.eps }

/-- To, Destination or Consignee label, capturing an address. -/
def aP2 : Pat :=
  { pre := RE.seq
      (RE.alt (litCI ("To")) (RE.alt (litCI ("Destination")) (litCI ("Consignee"))))
      (RE.rep isWsColon 0 none false),
    body := addrBody,
    post := RE.eps }

/-! ## The extractor `_extract_bol_fields` -/

/-- The mapping returned by `_extract_bol_fields`: a key is present with a
value exactly when the corresponding `Option` is `some`. -/
structure ExtractedFields where
  bol_number : Option (List Char)
  carrier_name : Option (List Char)
  weight : Option (List Char)
  pallet_count : Option (List Char)
  ship_date : Option (List Char)
  from_address : Option (List Char)
  to_address : Option (List Char)
deriving DecidableEq

/-- First-match-wins loop over a pattern list, storing the raw capture of the
first pattern that matches (the break-on-match loops for bol, weight, pallet
and date fields; strip or suffix post-processing is applied by the caller).
Every pattern's group is mandatory, so the `getD` default is never used. -/
def firstCap : List Pat → List Char → Option (List Char)
  | [], _ => none
  | p :: ps, s =>
    match patSearch p s with
    | some cap => some (cap.getD [])
    | none => firstCap ps s

/-- The carrier loop: the first pattern that matches only wins if its
stripped capture has length strictly between 3 and 100; a match failing that
length gate does not break the loop. -/
def carrierLoop : List Pat → List Char → Option (List Char)
  | [], _ => none
  | p :: ps, s =>
    match patSearch p s with
    | some cap =>
      let name := pyStrip (cap.getD [])
      if 3 < name.length && name.length < 100 then some name
      else carrierLoop ps s
    | none => carrierLoop ps s

/-- `_extract_bol_fields`. -/
def extractBolFields (s : List Char) : ExtractedFields :=
  { bol_number := (firstCap bolPatterns s).map pyStrip,
    carrier_name := carrierLoop carrierPatterns s,
    weight := (firstCap weightPatterns s).map (fun w => w ++ (" lbs").data),
    pallet_count := firstCap palletPatterns s,
    ship_date := firstCap datePatterns s,
    from_address := (patSearch aP1 s).map (fun cap => pyStrip (cap.getD [])),
    to_address := (patSearch aP2 s).map (fun cap => pyStrip (cap.getD [])) }

/-! ## The quality scorer `_calculate_quality_score` -/

/-- The Python truthiness test `field in extracted_fields and
extracted_fields[field]`: the key is present and its string value non-empty. -/
def fieldTruthy : Option (List Char) → Bool
  | some v => !v.isEmpty
  | none => false

/-- `_calculate_quality_score`, transcribed statement by statement: a running
score accumulates the confidence term, one text-volume tier and the field
weights, then is truncated with `int` and clamped into 0..100.  The
`structured_data` argument is represented by the two components the scorer
reads from it: the full text and the extracted fields. -/
def calculateQualityScore (fullText : List Char) (fields : ExtractedFields)
    (averageConfidence : ℚ) : ℤ :=
  let score : ℚ := 0
  let score := score + averageConfidence * (2/5)
  let score := score +
    (if fullText.length > 100 then (30 : ℚ)
     else if fullText.length > 50 then 20
     else if fullText.length > 10 then 10
     else 0)
  let score := score + (if fieldTruthy fields.bol_number then (10 : ℚ) else 0)
  let score := score + (if fieldTruthy fields.carrier_name then (8 : ℚ) else 0)
  let score := score + (if fieldTruthy fields.weight then (5 : ℚ) else 0)
  let score := score + (if fieldTruthy fields.pallet_count then (4 : ℚ) else 0)
  let score := score + (if fieldTruthy fields.ship_date then (3 : ℚ) else 0)
  min 100 (max 0 (pyInt score))

/-- The text-volume component as the spec describes it: the single highest
satisfied tier. -/
def textVolumeComponent (fullText : List Char) : ℚ :=
  if fullText.length > 100 then 30
  else if fullText.length > 50 then 20
  else if fullText.length > 10 then 10
  else 0

/-- The field-presence component as the spec describes it: 10, 8, 5, 4, 3 for
each of the five scored fields present with a non-empty value. -/
def fieldPresenceComponent (fields : ExtractedFields) : ℚ :=
  (if fieldTruthy fields.bol_number then (10 : ℚ) else 0)
  + (if fieldTruthy fields.carrier_name then 8 else 0)
  + (if fieldTruthy fields.weight then 5 else 0)
  + (if fieldTruthy fields.pallet_count then 4 else 0)
  + (if fieldTruthy fields.ship_date then 3 else 0)

/-- The quality score as claim C2 words it (a definition following the spec's
words, for comparison with `calculateQualityScore`): `round` of the component
sum, then clamped to 0..100. -/
def claimedQualityScore (fullText : List Char) (fields : ExtractedFields)
    (averageConfidence : ℚ) : ℤ :=
  min 100 (max 0 (pyRound (averageConfidence * (2/5)
    + textVolumeComponent fullText + fieldPresenceComponent fields)))

/-! ## The confidence aggregation loop of `process_image` -/

/-- The confidence slot of an OCR line: either a Python number (the
`isinstance(confidence, (int, float))` test succeeds) or some non-numeric
value. -/
inductive ConfVal where
  | num (q : ℚ) : ConfVal
  | notNum : ConfVal
deriving DecidableEq

/-- One entry of `ocr_result[0]`.  `full text conf` is a well-formed line
`[bbox, (text, confidence)]` (the bounding box is never read by the
aggregation loop and is omitted); `short` is a line with fewer than two
elements, skipped by the `len(line) >= 2` guard. -/
inductive OcrLine where
  | full (text : List Char) (conf : ConfVal) : OcrLine
  | short : OcrLine
deriving DecidableEq

/-- One iteration of the accumulation loop over `(total_confidence,
confidence_count)`. -/
def confStep : (ℚ × ℕ) → OcrLine → (ℚ × ℕ)
  | (t, n), .full _ (.num q) => (t + q, n + 1)
  | acc, _ => acc

/-- The aggregation in `process_image`: accumulate the numeric confidences,
then `round(total / count, 2)` when the count is positive, else `0`. -/
def aggregateConfidence (lines : List OcrLine) : ℚ :=
  let tc := lines.foldl confStep (0, 0)
  if tc.2 > 0 then round2 (tc.1 / (tc.2 : ℚ)) else 0

/-- The numeric confidence carried by a line, if any (spec-side view used to
state the mean). -/
def numericConf : OcrLine → Option ℚ
  | .full _ (.num q) => some q
  | _ => none

/-- The texts collected into `full_text` (every line passing the length
guard contributes its text, numeric confidence or not). -/
def lineTexts : List OcrLine → List (List Char)
  | [] => []
  | .full t _ :: ls => t :: lineTexts ls
  | .short :: ls => lineTexts ls

/-- Python `"\n".join`. -/
def joinNL : List (List Char) → List Char
  | [] => []
  | [t] => t
  | t :: ts => t ++ '\n' :: joinNL ts

/-- The success path of `process_image` from the OCR lines to the quality
score: build `full_text`, extract fields from it, aggregate confidence, and
score — the average confidence is handed to the scorer exactly as
aggregated, with no rescaling. -/
def pipelineQualityScore (lines : List OcrLine) : ℤ :=
  let fullText := joinNL (lineTexts lines)
  calculateQualityScore fullText (extractBolFields fullText)
    (aggregateConfidence lines)

/-! ## The error envelope of `process_image` -/

/-- A JSON-serializable value appearing in the error response. -/
inductive JVal where
  | bool (b : Bool) : JVal
  | str (s : List Char) : JVal
  | rat (q : ℚ) : JVal
deriving DecidableEq

/-- The dictionary returned by the `except` branch of `process_image`,
transcribed key by key: success, error, error_type, processing_time (rounded
to two decimals) and traceback. -/
def processImageErrorResult (errMsg errType : List Char) (ptime : ℚ)
    (tb : List Char) : List (List Char × JVal) :=
  [ (("success").data, JVal.bool false),
    (("error").data, JVal.str errMsg),
    (("error_type").data, JVal.str errType),
    (("processing_time").data, JVal.rat (round2 ptime)),
    (("traceback").data, JVal.str tb) ]

/-- An `ExtractedFields` with no keys, used as a concrete instance. -/
def emptyFields : ExtractedFields :=
  { bol_number := none, carrier_name := none, weight := none,
    pallet_count := none, ship_date := none, from_address := none,
    to_address := none }

/-- An `ExtractedFields` with all five scored keys present and non-empty,
used as a concrete instance. -/
def allScoredFields : ExtractedFields :=
  { bol_number := some (("B1").data), carrier_name := some (("C1").data),
    weight := some (("W1").data), pallet_count := some (("P1").data),
    ship_date := some (("D1").data), from_address := none,
    to_address := none }

/-! ## A loose big-step semantics for the matcher, and its soundness

`Sem r s t cap cap'` over-approximates the behaviour of `mat`: starting at
input `s` with capture state `cap`, the expression `r` can consume a prefix
leaving `t` and capture state `cap'`.  It is deliberately loose where
precision is not needed (word boundaries carry no condition, repetition
upper bounds are dropped); `mat_sound` shows every successful run of the
matcher is described by it, which is what the capture-shape arguments
need. -/
inductive Sem : RE → List Char → List Char → Option (List Char) → Option (List Char) → Prop where
  | eps {s cap} : Sem RE.eps s s cap cap
  | cls {p c s cap} : p c = true → Sem (RE.cls p) (c :: s) s cap cap
  | seqS {a b s t u cap c1 c2} :
      Sem a s t cap c1 → Sem b t u c1 c2 → Sem (RE.seq a b) s u cap c2
  | altL {a b s t cap c1} : Sem a s t cap c1 → Sem (RE.alt a b) s t cap c1
  | altR {a b s t cap c1} : Sem b s t cap c1 → Sem (RE.alt a b) s t cap c1
  | optS {a s t cap c1} : Sem a s t cap c1 → Sem (RE.opt a) s t cap c1
  | optN {a s cap} : Sem (RE.opt a) s s cap cap
  | rep {p mn mx lz u s cap} : (∀ c ∈ u, p c = true) → mn ≤ u.length →
      Sem (RE.rep p mn mx lz) (u ++ s) s cap cap
  | group {a u t cap c1} :
      Sem a (u ++ t) t cap c1 → Sem (RE.group a) (u ++ t) t cap (some u)
  | endA {s cap} : s = [] ∨ s = ['\n'] → Sem RE.endAnchor s s cap cap
  | wordB {s cap} : Sem RE.wordB s s cap cap

/-- Everything `Sem` does consumes a prefix of the input. -/
theorem sem_prefix {r : RE} {s t : List Char} {c c' : Option (List Char)}
    (h : Sem r s t c c') : ∃ u, s = u ++ t := by
  induction h with
  | eps => exact ⟨[], rfl⟩
  | cls _ => exact ⟨[_], rfl⟩
  | seqS _ _ ih1 ih2 =>
    obtain ⟨u1, rfl⟩ := ih1
    obtain ⟨u2, rfl⟩ := ih2
    exact ⟨u1 ++ u2, by simp⟩
  | altL _ ih => exact ih
  | altR _ ih => exact ih
  | optS _ ih => exact ih
  | optN => exact ⟨[], rfl⟩
  | rep _ _ => exact ⟨_, rfl⟩
  | group _ _ => exact ⟨_, rfl⟩
  | endA _ => exact ⟨[], rfl⟩
  | wordB => exact ⟨[], rfl⟩

/-- Does an expression contain no capturing group? -/
def noGroup : RE → Bool
  | RE.eps => true
  | RE.cls _ => true
  | RE.seq a b => noGroup a && noGroup b
  | RE.alt a b => noGroup a && noGroup b
  | RE.opt a => noGroup a
  | RE.rep _ _ _ _ => true
  | RE.group _ => false
  | RE.endAnchor => true
  | RE.wordB => true

/-- A group-free expression leaves the capture state unchanged. -/
theorem sem_noGroup_cap {r : RE} {s t : List Char} {c c' : Option (List Char)}
    (h : Sem r s t c c') (hng : noGroup r = true) : c' = c := by
  induction h with
  | eps => rfl
  | cls _ => rfl
  | seqS _ _ ih1 ih2 =>
    rw [noGroup, Bool.and_eq_true] at hng
    rw [ih2 hng.2, ih1 hng.1]
  | altL _ ih =>
    rw [noGroup, Bool.and_eq_true] at hng
    exact ih hng.1
  | altR _ ih =>
    rw [noGroup, Bool.and_eq_true] at hng
    exact ih hng.2
  | optS _ ih => exact ih hng
  | optN => rfl
  | rep _ _ => rfl
  | group _ _ => exact absurd hng (by simp [noGroup])
  | endA _ => rfl
  | wordB => rfl

/-- `tryCands` succeeds only through one of its candidates. -/
theorem tryCands_sound {α : Type}
    (k : Option Char → List Char → Option (List Char) → Option α)
    (cap : Option (List Char)) (s : List Char) (prev : Option Char) :
    ∀ (L : List Nat) (v : α), tryCands k cap s prev L = some v →
      ∃ n ∈ L, k (prevAfter prev (s.take n)) (s.drop n) cap = some v := by
  intro L
  induction L with
  | nil => intro v h; exact absurd h (by simp [tryCands])
  | cons n ns ih =>
    intro v h
    rw [tryCands] at h
    cases hk : k (prevAfter prev (s.take n)) (s.drop n) cap with
    | some w =>
      rw [hk] at h
      simp only [Option.orElse] at h
      exact ⟨n, List.mem_cons_self n ns, by rw [hk, h]⟩
    | none =>
      rw [hk] at h
      simp only [Option.orElse] at h
      obtain ⟨m, hm, hkm⟩ := ih v h
      exact ⟨m, List.mem_cons_of_mem n hm, hkm⟩

/-- Membership in the candidate list bounds the count. -/
theorem mem_candList {mn mx : Nat} {lz : Bool} {n : Nat}
    (h : n ∈ candList mn mx lz) : mn ≤ n ∧ n ≤ mx := by
  rw [candList] at h
  by_cases hlt : mx < mn
  · simp [hlt] at h
  · rw [if_neg hlt] at h
    have hn : mn ≤ n ∧ n < mn + (mx - mn + 1) := by
      cases lz with
      | true => simpa using h
      | false => simpa using h
    omega

/-- The maximal run is no longer than the input. -/
theorem runLen_le_length (p : Char → Bool) : ∀ s : List Char, runLen p s ≤ s.length := by
  intro s
  induction s with
  | nil => simp [runLen]
  | cons c t ih =>
    rw [runLen]
    by_cases hc : p c
    · simp only [if_pos hc, List.length_cons]
      omega
    · simp only [if_neg hc, List.length_cons]
      omega

/-- Characters within the maximal run satisfy the class. -/
theorem take_all_p (p : Char → Bool) :
    ∀ (s : List Char) (n : Nat), n ≤ runLen p s → ∀ c ∈ s.take n, p c = true := by
  intro s
  induction s with
  | nil => intro n _ c hc; simp at hc
  | cons a t ih =>
    intro n hn c hc
    by_cases ha : p a
    · rw [runLen, if_pos ha] at hn
      cases n with
      | zero => simp at hc
      | succ m =>
        rw [List.take_succ_cons] at hc
        rcases List.mem_cons.mp hc with h | h
        · rw [h]; exact ha
        · exact ih m (by omega) c h
    · rw [runLen, if_neg ha] at hn
      interval_cases n
      simp at hc

/-- Taking exactly the consumed length out of `u ++ t` recovers `u`. -/
theorem take_consumed (u t : List Char) :
    (u ++ t).take ((u ++ t).length - t.length) = u := by
  have hlen : (u ++ t).length - t.length = u.length := by
    simp [List.length_append]
  rw [hlen]
  exact List.take_left u t

/-- Soundness of the backtracking matcher: every successful run is described
by `Sem`, and the continuation was invoked at the resulting state. -/
theorem mat_sound {α : Type} (r : RE) :
    ∀ (prev : Option Char) (s : List Char)
      (k : Option Char → List Char → Option (List Char) → Option α)
      (cap : Option (List Char)) (v : α),
      mat r prev s k cap = some v →
      ∃ prev' s' cap', Sem r s s' cap cap' ∧ k prev' s' cap' = some v := by
  induction r with
  | eps =>
    intro prev s k cap v h
    exact ⟨prev, s, cap, Sem.eps, h⟩
  | cls p =>
    intro prev s k cap v h
    cases s with
    | nil => exact absurd h (by simp [mat])
    | cons c s' =>
      rw [mat] at h
      by_cases hc : p c
      · rw [if_pos hc] at h
        exact ⟨some c, s', cap, Sem.cls hc, h⟩
      · rw [if_neg hc] at h
        exact absurd h (by simp)
  | seq a b iha ihb =>
    intro prev s k cap v h
    rw [mat] at h
    obtain ⟨p1, s1, c1, hsa, hk1⟩ := iha prev s _ cap v h
    obtain ⟨p2, s2, c2, hsb, hk2⟩ := ihb p1 s1 k c1 v hk1
    exact ⟨p2, s2, c2, Sem.seqS hsa hsb, hk2⟩
  | alt a b iha ihb =>
    intro prev s k cap v h
    rw [mat] at h
    cases ha : mat a prev s k cap with
    | some w =>
      rw [ha] at h
      simp only [Option.orElse] at h
      obtain ⟨p1, s1, c1, hs, hk⟩ := iha prev s k cap v (by rw [ha, h])
      exact ⟨p1, s1, c1, Sem.altL hs, hk⟩
    | none =>
      rw [ha] at h
      simp only [Option.orElse] at h
      obtain ⟨p1, s1, c1, hs, hk⟩ := ihb prev s k cap v h
      exact ⟨p1, s1, c1, Sem.altR hs, hk⟩
  | opt a iha =>
    intro prev s k cap v h
    rw [mat] at h
    cases ha : mat a prev s k cap with
    | some w =>
      rw [ha] at h
      simp only [Option.orElse] at h
      obtain ⟨p1, s1, c1, hs, hk⟩ := iha prev s k cap v (by rw [ha, h])
      exact ⟨p1, s1, c1, Sem.optS hs, hk⟩
    | none =>
      rw [ha] at h
      simp only [Option.orElse] at h
      exact ⟨prev, s, cap, Sem.optN, h⟩
  | rep p mn mx lz =>
    intro prev s k cap v h
    rw [mat] at h
    obtain ⟨n, hn, hk⟩ := tryCands_sound k cap s prev _ v h
    obtain ⟨hmn, hmx⟩ := mem_candList hn
    have hrun : n ≤ runLen p s := by
      cases mx with
      | none => simpa [effMax] using hmx
      | some m =>
        rw [effMax] at hmx
        omega
    have hlen : (s.take n).length = n := by
      rw [List.length_take]
      have := runLen_le_length p s
      omega
    have hsem : Sem (RE.rep p mn mx lz) (s.take n ++ s.drop n) (s.drop n) cap cap :=
      Sem.rep (take_all_p p s n hrun) (by omega)
    rw [List.take_append_drop] at hsem
    exact ⟨prevAfter prev (s.take n), s.drop n, cap, hsem, hk⟩
  | group a iha =>
    intro prev s k cap v h
    rw [mat] at h
    obtain ⟨p1, s1, c1, hsa, hk1⟩ := iha prev s _ cap v h
    obtain ⟨u, rfl⟩ := sem_prefix hsa
    rw [take_consumed] at hk1
    exact ⟨p1, s1, some u, Sem.group hsa, hk1⟩
  | endAnchor =>
    intro prev s k cap v h
    rw [mat] at h
    by_cases hc : s = [] ∨ s = ['\n']
    · rw [if_pos hc] at h
      exact ⟨prev, s, cap, Sem.endA hc, h⟩
    · rw [if_neg hc] at h
      exact absurd h (by simp)
  | wordB =>
    intro prev s k cap v h
    rw [mat] at h
    by_cases hc : isWordOpt prev != isWordOpt s.head?
    · rw [if_pos hc] at h
      exact ⟨prev, s, cap, Sem.wordB, h⟩
    · rw [if_neg hc] at h
      exact absurd h (by simp)

/-- Soundness of the position scan: a successful search is a `Sem` run
starting at some suffix of the input. -/
theorem searchFrom_sound (r : RE) :
    ∀ (s : List Char) (prev : Option Char) (cap : Option (List Char)),
      searchFrom r prev s = some cap →
      ∃ pre s0 t, s = pre ++ s0 ∧ Sem r s0 t none cap := by
  intro s
  induction s with
  | nil =>
    intro prev cap h
    rw [searchFrom] at h
    cases hm : mat r prev [] (fun _ _ c => some c) none with
    | some c =>
      rw [hm] at h
      obtain ⟨p1, s1, c1, hs, hk⟩ := mat_sound r prev [] _ none c hm
      cases h
      cases hk
      exact ⟨[], [], s1, rfl, hs⟩
    | none => rw [hm] at h; cases h
  | cons ch rest ih =>
    intro prev cap h
    rw [searchFrom] at h
    cases hm : mat r prev (ch :: rest) (fun _ _ c => some c) none with
    | some c =>
      rw [hm] at h
      obtain ⟨p1, s1, c1, hs, hk⟩ := mat_sound r prev (ch :: rest) _ none c hm
      cases h
      cases hk
      exact ⟨[], ch :: rest, s1, rfl, hs⟩
    | none =>
      rw [hm] at h
      obtain ⟨pre, s0, t, heq, hs⟩ := ih (some ch) cap h
      exact ⟨ch :: pre, s0, t, by rw [heq]; rfl, hs⟩

/-- Inversion for sequencing. -/
theorem sem_seq_inv {a b : RE} {s u : List Char} {c c' : Option (List Char)}
    (h : Sem (RE.seq a b) s u c c') :
    ∃ t c1, Sem a s t c c1 ∧ Sem b t u c1 c' := by
  cases h with
  | seqS h1 h2 => exact ⟨_, _, h1, h2⟩

/-- Inversion for class repetition. -/
theorem sem_rep_inv {p : Char → Bool} {mn : Nat} {mx : Option Nat} {lz : Bool}
    {s t : List Char} {c c' : Option (List Char)}
    (h : Sem (RE.rep p mn mx lz) s t c c') :
    ∃ u, s = u ++ t ∧ (∀ x ∈ u, p x = true) ∧ mn ≤ u.length := by
  cases h with
  | rep hp hl => exact ⟨_, rfl, hp, hl⟩

/-- Inversion for a single character class. -/
theorem sem_cls_inv {p : Char → Bool} {s t : List Char} {c c' : Option (List Char)}
    (h : Sem (RE.cls p) s t c c') :
    ∃ ch, s = ch :: t ∧ p ch = true := by
  cases h with
  | cls hp => exact ⟨_, rfl, hp⟩

/-- A successful pattern search always records a capture, and that capture
is a string consumed by the pattern's group body. -/
theorem patSearch_capture (p : Pat) (hpre : noGroup p.pre = true)
    (hpost : noGroup p.post = true) (s : List Char) (cap : Option (List Char))
    (h : patSearch p s = some cap) :
    ∃ u t c1, cap = some u ∧ Sem p.body (u ++ t) t none c1 := by
  obtain ⟨pre, s0, t, _, hs⟩ := searchFrom_sound (toRE p) s none cap h
  obtain ⟨t1, c1, hsPre, hsRest⟩ := sem_seq_inv hs
  have hc1 : c1 = none := sem_noGroup_cap hsPre hpre
  subst hc1
  obtain ⟨t2, c2, hsGrp, hsPost⟩ := sem_seq_inv hsRest
  cases hsGrp with
  | group hbody =>
    have : cap = some _ := (sem_noGroup_cap hsPost hpost)
    exact ⟨_, _, _, this, hbody⟩

/-- A value produced by the first-match loop comes from some pattern in the
list. -/
theorem firstCap_mem :
    ∀ (ps : List Pat) (s w : List Char), firstCap ps s = some w →
      ∃ p ∈ ps, ∃ cap, patSearch p s = some cap ∧ w = cap.getD [] := by
  intro ps
  induction ps with
  | nil => intro s w h; exact absurd h (by simp [firstCap])
  | cons p rest ih =>
    intro s w h
    rw [firstCap] at h
    cases hp : patSearch p s with
    | some cap =>
      rw [hp] at h
      exact ⟨p, List.mem_cons_self p rest, cap, hp, by cases h; rfl⟩
    | none =>
      rw [hp] at h
      obtain ⟨q, hq, cap, hcap, hw⟩ := ih s w h
      exact ⟨q, List.mem_cons_of_mem p hq, cap, hcap, hw⟩

/-- A value produced by the carrier loop comes from some pattern in the list,
is the stripped capture, and passed the length gate. -/
theorem carrierLoop_mem :
    ∀ (ps : List Pat) (s w : List Char), carrierLoop ps s = some w →
      ∃ p ∈ ps, ∃ cap, patSearch p s = some cap ∧ w = pyStrip (cap.getD []) ∧
        3 < w.length ∧ w.length < 100 := by
  intro ps
  induction ps with
  | nil => intro s w h; exact absurd h (by simp [carrierLoop])
  | cons p rest ih =>
    intro s w h
    rw [carrierLoop] at h
    cases hp : patSearch p s with
    | some cap =>
      rw [hp] at h
      simp only at h
      by_cases hg : 3 < (pyStrip (cap.getD [])).length && (pyStrip (cap.getD [])).length < 100
      · rw [if_pos hg] at h
        cases h
        rw [Bool.and_eq_true, decide_eq_true_eq, decide_eq_true_eq] at hg
        exact ⟨p, List.mem_cons_self p rest, cap, hp, rfl, hg.1, hg.2⟩
      · rw [if_neg hg] at h
        obtain ⟨q, hq, cap2, hcap, hw, hlen⟩ := ih s w h
        exact ⟨q, List.mem_cons_of_mem p hq, cap2, hcap, hw, hlen⟩
    | none =>
      rw [hp] at h
      obtain ⟨q, hq, cap2, hcap, hw, hlen⟩ := ih s w h
      exact ⟨q, List.mem_cons_of_mem p hq, cap2, hcap, hw, hlen⟩

/-- The first-match loop is the first pattern whose search succeeds. -/
theorem firstCap_eq_findSome (ps : List Pat) (s : List Char) :
    firstCap ps s =
      (ps.findSome? (fun p => patSearch p s)).map (fun cap => cap.getD []) := by
  induction ps with
  | nil => simp [firstCap, List.findSome?_nil]
  | cons p rest ih =>
    rw [firstCap, List.findSome?_cons]
    cases hp : patSearch p s with
    | some cap => simp
    | none => simpa using ih

/-- The carrier loop is the first pattern whose search succeeds and whose
stripped capture passes the length gate. -/
theorem carrierLoop_eq_findSome (ps : List Pat) (s : List Char) :
    carrierLoop ps s =
      ps.findSome? (fun p => (patSearch p s).bind (fun cap =>
        if 3 < (pyStrip (cap.getD [])).length && (pyStrip (cap.getD [])).length < 100
        then some (pyStrip (cap.getD [])) else none)) := by
  induction ps with
  | nil => simp [carrierLoop, List.findSome?_nil]
  | cons p rest ih =>
    rw [carrierLoop, List.findSome?_cons]
    cases hp : patSearch p s with
    | some cap =>
      by_cases hg : 3 < (pyStrip (cap.getD [])).length ∧ (pyStrip (cap.getD [])).length < 100
      · simp [hg.1, hg.2]
      · have hgb : (3 < (pyStrip (cap.getD [])).length &&
            (pyStrip (cap.getD [])).length < 100) = false := by
          rw [← Bool.not_eq_true]
          intro hb
          exact hg (by simpa using hb)
        simp [hgb, hg, ih]
    | none => simpa using ih

/-- If a list has a member that is not whitespace, stripping it leaves a
non-empty list. -/
theorem pyStrip_ne_nil {s : List Char} {c : Char} (hc : c ∈ s)
    (hns : isWS c = false) : pyStrip s ≠ [] := by
  intro hnil
  rw [pyStrip, List.reverse_eq_nil_iff, List.dropWhile_eq_nil_iff] at hnil
  have hdrop : ∀ x ∈ s.dropWhile isWS, isWS x = true := by
    intro x hx
    exact hnil x (List.mem_reverse.mpr hx)
  have hsplit : c ∈ s.takeWhile isWS ++ s.dropWhile isWS := by
    rw [List.takeWhile_append_dropWhile]
    exact hc
  rcases List.mem_append.mp hsplit with h | h
  · exact absurd (List.mem_takeWhile_imp h) (by rw [hns]; simp)
  · exact absurd (hdrop c h) (by rw [hns]; simp)

/-- An alphanumeric character is not whitespace. -/
theorem alnumCI_not_ws {c : Char} (h : isAlnumCI c = true) : isWS c = false := by
  by_contra hw
  rw [Bool.not_eq_false] at hw
  rw [isWS] at hw
  simp only [Bool.or_eq_true, beq_iff_eq] at hw
  rcases hw with ((((h1 | h1) | h1) | h1) | h1) | h1 <;> subst h1 <;>
    exact absurd h (by decide)

/-- A character that lowercases to a comma is not whitespace. -/
theorem lowerComma_not_ws {c : Char} (h : (c.toLower == ','.toLower) = true) :
    isWS c = false := by
  by_contra hw
  rw [Bool.not_eq_false] at hw
  rw [isWS] at hw
  simp only [Bool.or_eq_true, beq_iff_eq] at hw
  rcases hw with ((((h1 | h1) | h1) | h1) | h1) | h1 <;> subst h1 <;>
    exact absurd h (by decide)

/-- `ratFloor` agrees with the mathematical floor. -/
theorem ratFloor_eq_floor (q : ℚ) : ratFloor q = ⌊q⌋ := by
  rw [Rat.floor_def, ratFloor]
  exact Int.fdiv_eq_ediv _ (by positivity)

/-- `pyInt` is the floor for non-negative arguments and the ceiling for
negative ones. -/
theorem pyInt_eq (q : ℚ) : pyInt q = if q < 0 then ⌈q⌉ else ⌊q⌋ := by
  rw [pyInt, ratFloor_eq_floor, ratFloor_eq_floor]
  by_cases h : q < 0
  · rw [if_pos h, if_pos h, ← Int.ceil_neg, neg_neg]
  · rw [if_neg h, if_neg h]

/-- Truncation toward zero is monotone. -/
theorem pyInt_mono {x y : ℚ} (h : x ≤ y) : pyInt x ≤ pyInt y := by
  rw [pyInt_eq, pyInt_eq]
  by_cases hx : x < 0
  · by_cases hy : y < 0
    · rw [if_pos hx, if_pos hy]
      exact Int.ceil_le_ceil h
    · rw [if_pos hx, if_neg hy]
      have h1 : (⌈x⌉ : ℤ) ≤ 0 := Int.ceil_le.mpr (by exact_mod_cast le_of_lt hx)
      have h2 : (0 : ℤ) ≤ ⌊y⌋ := Int.floor_nonneg.mpr (le_of_not_lt hy)
      omega
  · rw [if_neg hx]
    have hy : ¬ y < 0 := fun hy => hx (lt_of_le_of_lt h hy)
    rw [if_neg hy]
    exact Int.floor_le_floor h

/-- The scorer as the explicit clamped, truncated component sum. -/
theorem calculateQualityScore_eq (fullText : List Char) (fields : ExtractedFields)
    (conf : ℚ) :
    calculateQualityScore fullText fields conf =
      min 100 (max 0 (pyInt (conf * (2/5) + textVolumeComponent fullText
        + fieldPresenceComponent fields))) := by
  rw [calculateQualityScore, textVolumeComponent, fieldPresenceComponent]
  ring_nf

/-- The accumulation loop computes the sum and count of the numeric
confidences. -/
theorem confFold_eq (lines : List OcrLine) :
    ∀ (t : ℚ) (n : ℕ),
      lines.foldl confStep (t, n) =
        (t + (lines.filterMap numericConf).sum, n + (lines.filterMap numericConf).length) := by
  induction lines with
  | nil => intro t n; simp
  | cons l rest ih =>
    intro t n
    cases l with
    | full txt conf =>
      cases conf with
      | num q =>
        rw [List.foldl_cons]
        rw [show confStep (t, n) (OcrLine.full txt (ConfVal.num q)) = (t + q, n + 1) from rfl]
        rw [ih]
        simp [numericConf]
        constructor
        · ring
        · omega
      | notNum =>
        rw [List.foldl_cons]
        rw [show confStep (t, n) (OcrLine.full txt ConfVal.notNum) = (t, n) from rfl]
        rw [ih]
        simp [numericConf]
    | short =>
      rw [List.foldl_cons]
      rw [show confStep (t, n) OcrLine.short = (t, n) from rfl]
      rw [ih]
      simp [numericConf]

/-- A capture consumed by a class repetition with positive minimum, over a
class of non-whitespace characters, strips to a non-empty string. -/
theorem rep_capture_ne_nil {p : Char → Bool} {mn : Nat} {mx : Option Nat}
    {lz : Bool} {u t : List Char} {c0 c1 : Option (List Char)} (hmn : 1 ≤ mn)
    (h : Sem (RE.rep p mn mx lz) (u ++ t) t c0 c1) :
    u ≠ [] ∧ (∀ c ∈ u, p c = true) := by
  obtain ⟨u0, heq, hall, hlen⟩ := sem_rep_inv h
  have hu : u = u0 := List.append_cancel_right heq
  subst hu
  exact ⟨by intro hnil; rw [hnil] at hlen; simp at hlen; omega, hall⟩

/-- A capture consumed by a sequence whose first element is a class
repetition with positive minimum is non-empty. -/
theorem seq_rep_capture_ne_nil {p : Char → Bool} {mn : Nat} {mx : Option Nat}
    {lz : Bool} {b : RE} {u t : List Char} {c0 c1 : Option (List Char)}
    (hmn : 1 ≤ mn) (h : Sem (RE.seq (RE.rep p mn mx lz) b) (u ++ t) t c0 c1) :
    u ≠ [] := by
  obtain ⟨m, cm, h1, h2⟩ := sem_seq_inv h
  obtain ⟨u1, heq1, _, hlen1⟩ := sem_rep_inv h1
  obtain ⟨u2, heq2⟩ := sem_prefix h2
  rw [heq2] at heq1
  have hlen : u.length + t.length = u1.length + (u2.length + t.length) := by
    have := congrArg List.length heq1
    simpa [List.length_append] using this
  intro hnil
  rw [hnil] at hlen
  simp at hlen
  omega

/-- A capture consumed by the address body contains its mandatory comma, so
it strips to a non-empty string. -/
theorem addr_capture_strip_ne_nil {u t : List Char} {c0 c1 : Option (List Char)}
    (h : Sem addrBody (u ++ t) t c0 c1) : pyStrip u ≠ [] := by
  rw [addrBody] at h
  obtain ⟨m, cm, h1, h2⟩ := sem_seq_inv h
  obtain ⟨u1, heq1, _, _⟩ := sem_rep_inv h1
  obtain ⟨m2, cm2, h3, h4⟩ := sem_seq_inv h2
  obtain ⟨ch, heq2, hch⟩ := sem_cls_inv h3
  obtain ⟨u3, heq3⟩ := sem_prefix h4
  rw [heq2, heq3] at heq1
  have hu : u = u1 ++ ch :: u3 := by
    have heq1' : u ++ t = (u1 ++ ch :: u3) ++ t := by
      rw [heq1]
      simp
    exact List.append_cancel_right heq1'
  have hmem : ch ∈ u := by
    rw [hu]
    exact List.mem_append.mpr (Or.inr (List.mem_cons_self ch u3))
  exact pyStrip_ne_nil hmem (lowerComma_not_ws hch)

/-- The stripped capture of a pattern whose group body is an alphanumeric
repetition with positive minimum is non-empty. -/
theorem alnumPat_strip_ne_nil {p : Pat} (hpre : noGroup p.pre = true)
    (hpost : noGroup p.post = true) {mn : Nat} {mx : Option Nat} {lz : Bool}
    (hbody : p.body = RE.rep isAlnumCI mn mx lz) (hmn : 1 ≤ mn)
    {s : List Char} {cap : Option (List Char)}
    (hcap : patSearch p s = some cap) : pyStrip (cap.getD []) ≠ [] := by
  obtain ⟨u, t, c1, rfl, hsem⟩ := patSearch_capture p hpre hpost s cap hcap
  rw [hbody] at hsem
  obtain ⟨hne, hall⟩ := rep_capture_ne_nil hmn hsem
  rw [Option.getD_some]
  cases u with
  | nil => exact absurd rfl hne
  | cons c rest =>
    exact pyStrip_ne_nil (List.mem_cons_self c rest)
      (alnumCI_not_ws (hall c (List.mem_cons_self c rest)))

/-- The raw capture of a pattern whose group body is a class repetition with
positive minimum is non-empty. -/
theorem repPat_cap_ne_nil {p : Pat} (hpre : noGroup p.pre = true)
    (hpost : noGroup p.post = true) {pc : Char → Bool} {mn : Nat}
    {mx : Option Nat} {lz : Bool} (hbody : p.body = RE.rep pc mn mx lz)
    (hmn : 1 ≤ mn) {s : List Char} {cap : Option (List Char)}
    (hcap : patSearch p s = some cap) : cap.getD [] ≠ [] := by
  obtain ⟨u, t, c1, rfl, hsem⟩ := patSearch_capture p hpre hpost s cap hcap
  rw [hbody] at hsem
  rw [Option.getD_some]
  exact (rep_capture_ne_nil hmn hsem).1

/-- The raw capture of a pattern whose group body is the date body is
non-empty. -/
theorem datePat_cap_ne_nil {p : Pat} (hpre : noGroup p.pre = true)
    (hpost : noGroup p.post = true) (hbody : p.body = dateBody)
    {s : List Char} {cap : Option (List Char)}
    (hcap : patSearch p s = some cap) : cap.getD [] ≠ [] := by
  obtain ⟨u, t, c1, rfl, hsem⟩ := patSearch_capture p hpre hpost s cap hcap
  rw [hbody, dateBody] at hsem
  rw [Option.getD_some]
  exact seq_rep_capture_ne_nil (by omega) hsem

/-- The stripped capture of a pattern whose group body is the address body is
non-empty. -/
theorem addrPat_strip_ne_nil {p : Pat} (hpre : noGroup p.pre = true)
    (hpost : noGroup p.post = true) (hbody : p.body = addrBody)
    {s : List Char} {cap : Option (List Char)}
    (hcap : patSearch p s = some cap) : pyStrip (cap.getD []) ≠ [] := by
  obtain ⟨u, t, c1, rfl, hsem⟩ := patSearch_capture p hpre hpost s cap hcap
  rw [hbody] at hsem
  rw [Option.getD_some]
  exact addr_capture_strip_ne_nil hsem

/-- Any stored `bol_number` is non-empty. -/
theorem bol_value_ne_nil {s v : List Char}
    (h : (extractBolFields s).bol_number = some v) : v ≠ [] := by
  have h' : (firstCap bolPatterns s).map pyStrip = some v := h
  obtain ⟨w, hw, hv⟩ := Option.map_eq_some'.mp h'
  obtain ⟨p, hp, cap, hcap, rfl⟩ := firstCap_mem _ _ _ hw
  subst hv
  have hp4 : p = bolP1 ∨ p = bolP2 ∨ p = bolP3 ∨ p = bolP4 := by
    simpa [bolPatterns] using hp
  rcases hp4 with rfl | rfl | rfl | rfl
  · exact alnumPat_strip_ne_nil (by decide) (by decide) rfl (by omega) hcap
  · exact alnumPat_strip_ne_nil (by decide) (by decide) rfl (by omega) hcap
  · exact alnumPat_strip_ne_nil (by decide) (by decide) rfl (by omega) hcap
  · exact alnumPat_strip_ne_nil (by decide) (by decide) rfl (by omega) hcap

/-- Any stored `carrier_name` is non-empty (it passed the length gate). -/
theorem carrier_value_ne_nil {s v : List Char}
    (h : (extractBolFields s).carrier_name = some v) : v ≠ [] := by
  have h' : carrierLoop carrierPatterns s = some v := h
  obtain ⟨p, _, cap, _, _, hlen, _⟩ := carrierLoop_mem _ _ _ h'
  intro hnil
  rw [hnil] at hlen
  simp at hlen

/-- Any stored `weight` is non-empty (it carries the literal suffix). -/
theorem weight_value_ne_nil {s v : List Char}
    (h : (extractBolFields s).weight = some v) : v ≠ [] := by
  have h' : (firstCap weightPatterns s).map (fun w => w ++ (" lbs").data) = some v := h
  obtain ⟨w, _, hv⟩ := Option.map_eq_some'.mp h'
  subst hv
  simp

/-- Any stored `pallet_count` is non-empty. -/
theorem pallet_value_ne_nil {s v : List Char}
    (h : (extractBolFields s).pallet_count = some v) : v ≠ [] := by
  have h' : firstCap palletPatterns s = some v := h
  obtain ⟨p, hp, cap, hcap, rfl⟩ := firstCap_mem _ _ _ h'
  have hp4 : p = pP1 ∨ p = pP2 ∨ p = pP3 ∨ p = pP4 := by
    simpa [palletPatterns] using hp
  rcases hp4 with rfl | rfl | rfl | rfl
  · exact repPat_cap_ne_nil (by decide) (by decide) rfl (by omega) hcap
  · exact repPat_cap_ne_nil (by decide) (by decide) rfl (by omega) hcap
  · exact repPat_cap_ne_nil (by decide) (by decide) rfl (by omega) hcap
  · exact repPat_cap_ne_nil (by decide) (by decide) rfl (by omega) hcap

/-- Any stored `ship_date` is non-empty. -/
theorem date_value_ne_nil {s v : List Char}
    (h : (extractBolFields s).ship_date = some v) : v ≠ [] := by
  have h' : firstCap datePatterns s = some v := h
  obtain ⟨p, hp, cap, hcap, rfl⟩ := firstCap_mem _ _ _ h'
  have hp3 : p = dP1 ∨ p = dP2 ∨ p = dP3 := by
    simpa [datePatterns] using hp
  rcases hp3 with rfl | rfl | rfl
  · exact datePat_cap_ne_nil (by decide) (by decide) rfl hcap
  · exact datePat_cap_ne_nil (by decide) (by decide) rfl hcap
  · exact datePat_cap_ne_nil (by decide) (by decide) rfl hcap

/-- Any stored `from_address` is non-empty. -/
theorem fromAddr_value_ne_nil {s v : List Char}
    (h : (extractBolFields s).from_address = some v) : v ≠ [] := by
  have h' : (patSearch aP1 s).map (fun cap => pyStrip (cap.getD [])) = some v := h
  obtain ⟨cap, hcap, hv⟩ := Option.map_eq_some'.mp h'
  subst hv
  exact addrPat_strip_ne_nil (by decide) (by decide) rfl hcap

/-- Any stored `to_address` is non-empty. -/
theorem toAddr_value_ne_nil {s v : List Char}
    (h : (extractBolFields s).to_address = some v) : v ≠ [] := by
  have h' : (patSearch aP2 s).map (fun cap => pyStrip (cap.getD [])) = some v := h
  obtain ⟨cap, hcap, hv⟩ := Option.map_eq_some'.mp h'
  subst hv
  exact addrPat_strip_ne_nil (by decide) (by decide) rfl hcap

/-- An optional field value that is either absent or a non-empty string. -/
def optNonempty : Option (List Char) → Prop
  | some v => v ≠ []
  | none => True

/-- For such a field, the scorer's truthiness test coincides with key
presence. -/
theorem truthy_eq_isSome {o : Option (List Char)} (h : optNonempty o) :
    fieldTruthy o = o.isSome := by
  cases o with
  | none => rfl
  | some v =>
    rw [optNonempty] at h
    simp [fieldTruthy, Option.isSome, List.isEmpty_iff, h]

/-- Evaluate `pyInt` at a non-negative argument from its floor. -/
theorem pyInt_of_floor {q : ℚ} {z : ℤ} (h0 : 0 ≤ q) (hf : ⌊q⌋ = z) :
    pyInt q = z := by
  rw [pyInt_eq, if_neg (not_lt.mpr h0), hf]

/-- Evaluate `pyRound` when the fractional part exceeds one half. -/
theorem pyRound_up {q : ℚ} {z : ℤ} (hf : ⌊q⌋ = z) (hr : 1/2 < q - (z : ℚ)) :
    pyRound q = z + 1 := by
  simp only [pyRound, ratFloor_eq_floor, hf]
  rw [if_neg (by linarith), if_pos hr]

/-- Evaluate `pyRound` when the fractional part is below one half. -/
theorem pyRound_down {q : ℚ} {z : ℤ} (hf : ⌊q⌋ = z) (hr : q - (z : ℚ) < 1/2) :
    pyRound q = z := by
  simp only [pyRound, ratFloor_eq_floor, hf]
  rw [if_pos hr]

/-! ## Claim theorems -/

/-- C1: on the text BOL# ABCD1234, Carrier: ABC Shipping, Weight: 1500 lbs,
Pallets: 4 (newline-separated), the extractor returns exactly the four keys
bol_number = ABCD1234, carrier_name = ABC Shipping, weight = 1500 lbs,
pallet_count = 4, and no other keys. -/
theorem c1_scenario_extraction :
    extractBolFields (("BOL# ABCD1234\nCarrier: ABC Shipping\nWeight: 1500 lbs\nPallets: 4").data) =
    { bol_number := some (("ABCD1234").data),
      carrier_name := some (("ABC Shipping").data),
      weight := some (("1500 lbs").data),
      pallet_count := some (("4").data),
      ship_date := none, from_address := none, to_address := none } := by
  decide

/-- C2 counterexample: with average confidence 99.9, a 150-character text and
all five scored fields present, the claimed round-based formula yields 100
while the code's `int` truncation yields 99. -/
theorem c2_counterexample :
    claimedQualityScore (List.replicate 150 'a') allScoredFields (999/10) = 100 ∧
    calculateQualityScore (List.replicate 150 'a') allScoredFields (999/10) = 99 := by
  have htext : textVolumeComponent (List.replicate 150 'a') = 30 := by
    rw [textVolumeComponent]
    norm_num
  have hft : fieldTruthy allScoredFields.bol_number = true ∧
      fieldTruthy allScoredFields.carrier_name = true ∧
      fieldTruthy allScoredFields.weight = true ∧
      fieldTruthy allScoredFields.pallet_count = true ∧
      fieldTruthy allScoredFields.ship_date = true := by decide
  have hfield : fieldPresenceComponent allScoredFields = 30 := by
    rw [fieldPresenceComponent, hft.1, hft.2.1, hft.2.2.1, hft.2.2.2.1, hft.2.2.2.2]
    norm_num
  have hs : (999/10 : ℚ) * (2/5) + 30 + 30 = 2499/25 := by norm_num
  constructor
  · rw [claimedQualityScore, htext, hfield, hs]
    rw [pyRound_up (z := 99) (by norm_num) (by push_cast; norm_num)]
    decide
  · rw [calculateQualityScore_eq, htext, hfield, hs]
    rw [pyInt_of_floor (z := 99) (by norm_num) (by norm_num)]
    decide

/-- C2 (amended): the quality score equals the component sum truncated toward
zero with Python `int` (not `round`), clamped into 0..100; the components are
as the claim describes them. -/
theorem c2_amended_truncated_score (fullText : List Char)
    (fields : ExtractedFields) (conf : ℚ) :
    calculateQualityScore fullText fields conf =
      min 100 (max 0 (pyInt (conf * (2/5) + textVolumeComponent fullText
        + fieldPresenceComponent fields))) :=
  calculateQualityScore_eq fullText fields conf

/-- C3: the pipeline performs no 0-1 to 0-100 rescaling.  With two lines of
unit-scale confidence 0.9, the aggregated average handed to the scorer is
0.9 (not 90) and the resulting quality score is 0; had the average been
multiplied by 100 exactly once as the claim requires, the same scorer would
return 36. -/
theorem c3_no_rescale_before_scoring :
    aggregateConfidence [OcrLine.full (("a").data) (ConfVal.num (9/10)),
      OcrLine.full (("b").data) (ConfVal.num (9/10))] = 9/10 ∧
    pipelineQualityScore [OcrLine.full (("a").data) (ConfVal.num (9/10)),
      OcrLine.full (("b").data) (ConfVal.num (9/10))] = 0 ∧
    calculateQualityScore (("a\nb").data) (extractBolFields (("a\nb").data))
      (100 * (9/10)) = 36 := by
  have hext : extractBolFields (("a\nb").data) = emptyFields := by decide
  have hlen : ((("a\nb").data)).length = 3 := by decide
  have htext0 : textVolumeComponent (("a\nb").data) = 0 := by
    rw [textVolumeComponent, hlen]
    norm_num
  have hfield0 : fieldPresenceComponent (extractBolFields (("a\nb").data)) = 0 := by
    rw [hext, fieldPresenceComponent]
    norm_num [emptyFields, fieldTruthy]
  have hagg : aggregateConfidence [OcrLine.full (("a").data) (ConfVal.num (9/10)),
      OcrLine.full (("b").data) (ConfVal.num (9/10))] = 9/10 := by
    rw [aggregateConfidence, confFold_eq]
    have hfm : ([OcrLine.full (("a").data) (ConfVal.num (9/10)),
        OcrLine.full (("b").data) (ConfVal.num (9/10))].filterMap numericConf) =
        [9/10, 9/10] := by
      simp [numericConf]
    rw [hfm]
    rw [if_pos (by norm_num)]
    have harg : ((0 : ℚ) + [(9/10 : ℚ), 9/10].sum) /
        ((((0 : ℕ) + [(9/10 : ℚ), 9/10].length : ℕ)) : ℚ) = 9/10 := by
      norm_num [List.sum_cons, List.sum_nil]
    rw [harg, round2]
    have h90 : (9/10 : ℚ) * 100 = 90 := by norm_num
    rw [h90, pyRound_down (z := 90) (by norm_num) (by push_cast; norm_num)]
    norm_num
  refine ⟨hagg, ?_, ?_⟩
  · simp only [pipelineQualityScore]
    have hjoin : joinNL (lineTexts [OcrLine.full (("a").data) (ConfVal.num (9/10)),
        OcrLine.full (("b").data) (ConfVal.num (9/10))]) = ("a\nb").data := by decide
    rw [hjoin, hagg, calculateQualityScore_eq, htext0, hfield0]
    have hs : (9/10 : ℚ) * (2/5) + 0 + 0 = 9/25 := by norm_num
    rw [hs, pyInt_of_floor (z := 0) (by norm_num) (by norm_num)]
    decide
  · rw [calculateQualityScore_eq, htext0, hfield0]
    have hs : (100 : ℚ) * (9/10) * (2/5) + 0 + 0 = 36 := by norm_num
    rw [hs, pyInt_of_floor (z := 36) (by norm_num) (by norm_num)]
    decide

/-- C4 counterexample: on the text Carrier: AB, newline, Trucking: Red Fox
Lines, the first carrier rule matches (capturing AB), yet the stored
carrier_name is Red Fox Lines from the second rule — the first matching rule
did not determine the value, because its stripped capture failed the length
gate. -/
theorem c4_counterexample :
    patSearch carP1 (("Carrier: AB\nTrucking: Red Fox Lines").data) =
      some (some (("AB").data)) ∧
    (extractBolFields (("Carrier: AB\nTrucking: Red Fox Lines").data)).carrier_name =
      some (("Red Fox Lines").data) ∧
    pyStrip (("AB").data) ≠ ("Red Fox Lines").data := by
  refine ⟨by decide, by decide, by decide⟩

/-- C4 (amended): for bol_number, weight, pallet_count and ship_date the
first rule that matches anywhere in the text determines the value and later
rules are not attempted; for carrier_name the first rule that matches AND
whose stripped capture has length strictly between 3 and 100 determines the
value (a matching rule failing the gate does not stop the iteration); the
address fields have a single rule each; every field receives at most one
value. -/
theorem c4_amended_first_match (s : List Char) :
    (extractBolFields s).bol_number =
      ((bolPatterns.findSome? (fun p => patSearch p s)).map
        (fun cap => cap.getD [])).map pyStrip ∧
    (extractBolFields s).weight =
      ((weightPatterns.findSome? (fun p => patSearch p s)).map
        (fun cap => cap.getD [])).map (fun w => w ++ (" lbs").data) ∧
    (extractBolFields s).pallet_count =
      (palletPatterns.findSome? (fun p => patSearch p s)).map
        (fun cap => cap.getD []) ∧
    (extractBolFields s).ship_date =
      (datePatterns.findSome? (fun p => patSearch p s)).map
        (fun cap => cap.getD []) ∧
    (extractBolFields s).carrier_name =
      carrierPatterns.findSome? (fun p => (patSearch p s).bind (fun cap =>
        if 3 < (pyStrip (cap.getD [])).length && (pyStrip (cap.getD [])).length < 100
        then some (pyStrip (cap.getD [])) else none)) ∧
    (extractBolFields s).from_address =
      (patSearch aP1 s).map (fun cap => pyStrip (cap.getD [])) ∧
    (extractBolFields s).to_address =
      (patSearch aP2 s).map (fun cap => pyStrip (cap.getD [])) := by
  refine ⟨?_, ?_, ?_, ?_, ?_, rfl, rfl⟩
  · show (firstCap bolPatterns s).map pyStrip = _
    rw [firstCap_eq_findSome, Option.map_map]
  · show (firstCap weightPatterns s).map _ = _
    rw [firstCap_eq_findSome, Option.map_map]
  · exact firstCap_eq_findSome _ _
  · exact firstCap_eq_findSome _ _
  · exact carrierLoop_eq_findSome _ _

/-- C5 counterexample: for three lines with numeric confidences 1, 1 and 0
the arithmetic mean is 2/3, but the aggregation returns 0.67 — the mean
rounded to two decimal places, not the mean itself. -/
theorem c5_counterexample :
    aggregateConfidence [OcrLine.full (("a").data) (ConfVal.num 1),
      OcrLine.full (("b").data) (ConfVal.num 1),
      OcrLine.full (("c").data) (ConfVal.num 0)] = 67/100 ∧
    ((1 : ℚ) + 1 + 0) / 3 = 2/3 ∧
    (67/100 : ℚ) ≠ 2/3 := by
  refine ⟨?_, by norm_num, by norm_num⟩
  rw [aggregateConfidence, confFold_eq]
  have hfm : ([OcrLine.full (("a").data) (ConfVal.num 1),
      OcrLine.full (("b").data) (ConfVal.num 1),
      OcrLine.full (("c").data) (ConfVal.num 0)].filterMap numericConf) =
      [1, 1, 0] := by
    simp [numericConf]
  rw [hfm]
  rw [if_pos (by norm_num)]
  have harg : ((0 : ℚ) + [(1 : ℚ), 1, 0].sum) /
      ((((0 : ℕ) + [(1 : ℚ), 1, 0].length : ℕ)) : ℚ) = 2/3 := by
    norm_num [List.sum_cons, List.sum_nil]
  rw [harg, round2]
  have h200 : (2/3 : ℚ) * 100 = 200/3 := by norm_num
  rw [h200, pyRound_up (z := 66) (by norm_num) (by push_cast; norm_num)]
  norm_num

/-- C5 (amended): the aggregation is total and returns the arithmetic mean
of exactly the numeric confidences rounded to two decimal places (non-numeric
confidences are excluded from both the sum and the count); if no line has a
numeric confidence the result is exactly 0. -/
theorem c5_amended_mean_rounded (lines : List OcrLine) :
    aggregateConfidence lines =
      (if (lines.filterMap numericConf).length > 0
       then round2 ((lines.filterMap numericConf).sum /
         ((lines.filterMap numericConf).length : ℚ))
       else 0) := by
  rw [aggregateConfidence, confFold_eq lines 0 0]
  simp

/-- C6: holding the text and fields fixed, the quality score is monotone
non-decreasing in the average confidence, and for every input (including
negative or huge confidences) it lies in 0..100. -/
theorem c6_monotone_and_range (fullText : List Char) (fields : ExtractedFields)
    (c1 c2 : ℚ) :
    (c1 ≤ c2 → calculateQualityScore fullText fields c1 ≤
      calculateQualityScore fullText fields c2) ∧
    0 ≤ calculateQualityScore fullText fields c1 ∧
    calculateQualityScore fullText fields c1 ≤ 100 := by
  refine ⟨?_, ?_, ?_⟩
  · intro h
    rw [calculateQualityScore_eq, calculateQualityScore_eq]
    have hmul : c1 * (2/5) ≤ c2 * (2/5) :=
      mul_le_mul_of_nonneg_right h (by norm_num)
    have hsum : c1 * (2/5) + textVolumeComponent fullText
        + fieldPresenceComponent fields ≤
        c2 * (2/5) + textVolumeComponent fullText
        + fieldPresenceComponent fields := by
      exact add_le_add_right (add_le_add_right hmul _) _
    exact min_le_min (le_refl _) (max_le_max (le_refl _) (pyInt_mono hsum))
  · rw [calculateQualityScore_eq]
    exact le_min (by norm_num) (le_max_left _ _)
  · rw [calculateQualityScore_eq]
    exact min_le_left _ _

/-- Witness for C6 at a concrete instance. -/
theorem c6_witness :
    ((0 : ℚ) ≤ 1 ∧ calculateQualityScore [] emptyFields 0 ≤
      calculateQualityScore [] emptyFields 1) ∧
    0 ≤ calculateQualityScore [] emptyFields 0 ∧
    calculateQualityScore [] emptyFields 0 ≤ 100 := by
  have h := c6_monotone_and_range [] emptyFields 0 1
  exact ⟨⟨by norm_num, h.1 (by norm_num)⟩, h.2.1, h.2.2⟩

/-- C7 counterexample: the error response is not exactly the three keys
success, error and error_type — it also carries a traceback key (and a
processing_time key). -/
theorem c7_counterexample :
    (("traceback").data ∈ (processImageErrorResult (("boom").data)
      (("ValueError").data) 1 (("tb").data)).map Prod.fst) ∧
    (("traceback").data ∉
      [("success").data, ("error").data, ("error_type").data]) := by
  refine ⟨by decide, by decide⟩

/-- C7 (amended): the error response has exactly the keys success, error,
error_type, processing_time and traceback, in that order; success is false,
error and error_type carry the exception message and kind, and no
extracted_fields key (nor any other structured field) is present. -/
theorem c7_amended_error_envelope (errMsg errType : List Char) (ptime : ℚ)
    (tb : List Char) :
    (processImageErrorResult errMsg errType ptime tb).map Prod.fst =
      [("success").data, ("error").data, ("error_type").data,
       ("processing_time").data, ("traceback").data] ∧
    (processImageErrorResult errMsg errType ptime tb).lookup (("success").data) =
      some (JVal.bool false) ∧
    (processImageErrorResult errMsg errType ptime tb).lookup (("error").data) =
      some (JVal.str errMsg) ∧
    (processImageErrorResult errMsg errType ptime tb).lookup (("error_type").data) =
      some (JVal.str errType) ∧
    (("extracted_fields").data ∉
      (processImageErrorResult errMsg errType ptime tb).map Prod.fst) := by
  refine ⟨rfl, rfl, rfl, rfl, ?_⟩
  rw [show (processImageErrorResult errMsg errType ptime tb).map Prod.fst =
    [("success").data, ("error").data, ("error_type").data,
     ("processing_time").data, ("traceback").data] from rfl]
  decide

/-- C8 counterexample: an integer adjacent to the labels Pcs, Pieces, Count
or Qty in number-then-label order is not extracted — only Pallets and Skids
support that order. -/
theorem c8_counterexample :
    (extractBolFields (("4 Pcs").data)).pallet_count = none ∧
    (extractBolFields (("4 Pieces").data)).pallet_count = none ∧
    (extractBolFields (("4 Count").data)).pallet_count = none ∧
    (extractBolFields (("4 Qty").data)).pallet_count = none := by
  refine ⟨by decide, by decide, by decide, by decide⟩

/-- C8 (amended): pallet_count matches an integer in label-then-number order
for all six labels Pallets, Skids, Pieces, Pcs, Count, Qty, but in
number-then-label order only for Pallets and Skids. -/
theorem c8_amended_pallet_labels :
    (extractBolFields (("Pallets: 4").data)).pallet_count = some (("4").data) ∧
    (extractBolFields (("Skids: 4").data)).pallet_count = some (("4").data) ∧
    (extractBolFields (("Pieces: 4").data)).pallet_count = some (("4").data) ∧
    (extractBolFields (("Pcs: 4").data)).pallet_count = some (("4").data) ∧
    (extractBolFields (("Count: 4").data)).pallet_count = some (("4").data) ∧
    (extractBolFields (("Qty: 4").data)).pallet_count = some (("4").data) ∧
    (extractBolFields (("4 Pallets").data)).pallet_count = some (("4").data) ∧
    (extractBolFields (("4 Skids").data)).pallet_count = some (("4").data) := by
  refine ⟨by decide, by decide, by decide, by decide, by decide, by decide,
    by decide, by decide⟩

/-- C9: whenever a weight rule matches, the stored weight is exactly the
captured numeral of the first matching rule with the literal suffix
" lbs" appended, regardless of the source unit token — in particular a kg
match is still labelled lbs, with no conversion. -/
theorem c9_weight_lbs_suffix :
    (∀ s : List Char, (extractBolFields s).weight =
      ((weightPatterns.findSome? (fun p => patSearch p s)).map
        (fun cap => cap.getD [])).map (fun w => w ++ (" lbs").data)) ∧
    (extractBolFields (("Weight: 70 kg").data)).weight =
      some (("70 lbs").data) := by
  refine ⟨?_, by decide⟩
  intro s
  show (firstCap weightPatterns s).map _ = _
  rw [firstCap_eq_findSome, Option.map_map]

/-- C10: every value the extractor stores is a non-empty string, so the
scorer's present-with-non-empty-value test coincides with plain key presence
on extractor output. -/
theorem c10_values_nonempty (s : List Char) :
    (optNonempty (extractBolFields s).bol_number ∧
     optNonempty (extractBolFields s).carrier_name ∧
     optNonempty (extractBolFields s).weight ∧
     optNonempty (extractBolFields s).pallet_count ∧
     optNonempty (extractBolFields s).ship_date ∧
     optNonempty (extractBolFields s).from_address ∧
     optNonempty (extractBolFields s).to_address) ∧
    (fieldTruthy (extractBolFields s).bol_number =
      (extractBolFields s).bol_number.isSome ∧
     fieldTruthy (extractBolFields s).carrier_name =
      (extractBolFields s).carrier_name.isSome ∧
     fieldTruthy (extractBolFields s).weight =
      (extractBolFields s).weight.isSome ∧
     fieldTruthy (extractBolFields s).pallet_count =
      (extractBolFields s).pallet_count.isSome ∧
     fieldTruthy (extractBolFields s).ship_date =
      (extractBolFields s).ship_date.isSome) := by
  have h1 : optNonempty (extractBolFields s).bol_number := by
    cases h : (extractBolFields s).bol_number with
    | none => exact trivial
    | some v => exact bol_value_ne_nil h
  have h2 : optNonempty (extractBolFields s).carrier_name := by
    cases h : (extractBolFields s).carrier_name with
    | none => exact trivial
    | some v => exact carrier_value_ne_nil h
  have h3 : optNonempty (extractBolFields s).weight := by
    cases h : (extractBolFields s).weight with
    | none => exact trivial
    | some v => exact weight_value_ne_nil h
  have h4 : optNonempty (extractBolFields s).pallet_count := by
    cases h : (extractBolFields s).pallet_count with
    | none => exact trivial
    | some v => exact pallet_value_ne_nil h
  have h5 : optNonempty (extractBolFields s).ship_date := by
    cases h : (extractBolFields s).ship_date with
    | none => exact trivial
    | some v => exact date_value_ne_nil h
  have h6 : optNonempty (extractBolFields s).from_address := by
    cases h : (extractBolFields s).from_address with
    | none => exact trivial
    | some v => exact fromAddr_value_ne_nil h
  have h7 : optNonempty (extractBolFields s).to_address := by
    cases h : (extractBolFields s).to_address with
    | none => exact trivial
    | some v => exact toAddr_value_ne_nil h
  exact ⟨⟨h1, h2, h3, h4, h5, h6, h7⟩,
    truthy_eq_isSome h1, truthy_eq_isSome h2, truthy_eq_isSome h3,
    truthy_eq_isSome h4, truthy_eq_isSome h5⟩
